import Mathlib

/-!
Verification of the DRIFT time-dilation arena shooter core
(`src/unnamed/part_000`, class `Game`).  The simulation state is embedded
shallowly: `THREE.Vector3` becomes a record of three rationals, floats
become exact rationals, and distance comparisons (`distanceTo(p) < r` in
the source) are expressed on squared distances, which is equivalent for a
nonnegative radius.
-/

namespace Drift

/-- Three-component rational vector modelling `THREE.Vector3` as used by
the game logic. -/
structure Vec3 where
  x : ℚ
  y : ℚ
  z : ℚ
deriving DecidableEq, Repr

def vadd (a b : Vec3) : Vec3 := ⟨a.x + b.x, a.y + b.y, a.z + b.z⟩

def vsub (a b : Vec3) : Vec3 := ⟨a.x - b.x, a.y - b.y, a.z - b.z⟩

def vsmul (c : ℚ) (a : Vec3) : Vec3 := ⟨c * a.x, c * a.y, c * a.z⟩

def dot (a b : Vec3) : ℚ := a.x * b.x + a.y * b.y + a.z * b.z

/-- Squared length of a vector; `v.length()` in the source is its square
root. -/
def normSq (a : Vec3) : ℚ := dot a a

/-- Squared distance; `a.distanceTo(b)` in the source is its square root. -/
def distSq (a b : Vec3) : ℚ := normSq (vsub a b)

/-- Proximity test `a.distanceTo(b) < r` of the source, expressed on
squares (equivalent for `0 ≤ r` because the square root is monotone). -/
def withinR (a b : Vec3) (r : ℚ) : Bool := decide (distSq a b < r * r)

/-! ## Time dilation controller (`updateTimeDilation`, lines 972-980) -/

/-- Lower pointer-speed threshold `minVelocity = 2` of `updateTimeDilation`. -/
def minVelocity : ℚ := 2

/-- Upper pointer-speed threshold `maxVelocity = 30` of `updateTimeDilation`. -/
def maxVelocity : ℚ := 30

/-- The clamp `Math.max(0, Math.min(1, t))` of `updateTimeDilation`. -/
def clamp01 (t : ℚ) : ℚ := max 0 (min 1 t)

/-- Target time-scale computation of `updateTimeDilation`:
`t = (mouseVelocity - minVelocity) / (maxVelocity - minVelocity)` clamped
to `[0,1]`, then squared, then
`targetTimeScale = minTimeScale + t * (1 - minTimeScale)`. -/
def updateTimeDilationTarget (mouseVelocity minTimeScale : ℚ) : ℚ :=
  let t := clamp01 ((mouseVelocity - minVelocity) / (maxVelocity - minVelocity))
  minTimeScale + t * t * (1 - minTimeScale)

/-! ## Player damage (`playerHit`, lines 1510-1529; `gameOver`, 1542-1547) -/

/-- Observable result of a `playerHit` call: the stored health afterwards,
whether `gameOver` fired, and the score surfaced on the game-over screen. -/
structure PlayerHitResult where
  health : ℚ
  gameOverFired : Bool
  finalScore : Option ℚ
deriving DecidableEq, Repr

/-- The `playerHit(damage)` routine: a hit while the time shield is active
returns immediately; otherwise `health -= damage` (the source performs no
clamping of health), and if the resulting health is `≤ 0` the `gameOver`
routine runs and surfaces the then-current score. -/
def playerHit (timeShieldActive : Bool) (health score damage : ℚ) :
    PlayerHitResult :=
  if timeShieldActive then ⟨health, false, none⟩
  else
    let h := health - damage
    if h ≤ 0 then ⟨h, true, some score⟩ else ⟨h, false, none⟩

/-! ## Particles (`createParticle`, lines 625-650) -/

/-- A particle record as pushed by `createParticle` (the mesh/color are
presentation-only and not part of the simulation state). -/
structure Particle where
  pos : Vec3
  velocity : Vec3
  life : ℚ
  maxLife : ℚ
deriving DecidableEq, Repr

/-- The `createParticle` routine restricted to its effect on the particle
collection: `if (this.particles.length > 150) return;` and otherwise a
push of one new particle with `maxLife = life`. -/
def createParticle (particles : List Particle) (position velocity : Vec3)
    (life : ℚ) : List Particle :=
  if 150 < particles.length then particles
  else particles ++ [⟨position, velocity, life, life⟩]

/-! ## Dash state machine (`tryDash`, lines 493-518; cooldown decrement in
`updatePlayer`, lines 1048-1053) -/

/-- The dash-related slice of the player record. -/
structure DashState where
  canDash : Bool
  dashCooldown : ℚ
  dashCooldownMax : ℚ
  isDashing : Bool
  dashVelocity : Vec3
deriving DecidableEq, Repr

/-- The `tryDash` command: an early return when `canDash` is false;
otherwise it starts a dash with velocity `50 * dir`, clears `canDash` and
arms the cooldown at `dashCooldownMax`.  `dir` is the already-resolved
world-space dash direction (held movement keys, falling back to forward,
normalized and rotated by yaw in the source). -/
def tryDash (s : DashState) (dir : Vec3) : DashState :=
  if s.canDash then
    { s with isDashing := true, dashVelocity := vsmul 50 dir,
             canDash := false, dashCooldown := s.dashCooldownMax }
  else s

/-- The per-tick cooldown decrement of `updatePlayer`:
`if (!canDash) { dashCooldown -= dt; if (dashCooldown <= 0) canDash = true; }`.
The source stores the decremented value without resetting it to zero. -/
def dashCooldownTick (s : DashState) (dt : ℚ) : DashState :=
  if s.canDash then s
  else
    let c := s.dashCooldown - dt
    if c ≤ 0 then { s with dashCooldown := c, canDash := true }
    else { s with dashCooldown := c }

/-! ## Waves (`spawnWave`, lines 533-544; `destroyEnemy`, lines 1352-1394) -/

/-- Enemy archetype tag. -/
inductive EnemyType
  | basic
  | fast
  | heavy
  | sniper
deriving DecidableEq, Repr

/-- The slice of an enemy record relevant to collisions and scoring. -/
structure Enemy where
  pos : Vec3
  health : ℚ
  type : EnemyType
deriving DecidableEq, Repr

/-- Score table of `destroyEnemy`:
`{ basic: 100, fast: 150, heavy: 250, sniper: 200 }`. -/
def enemyScore : EnemyType → ℚ
  | .basic => 100
  | .fast => 150
  | .heavy => 250
  | .sniper => 200

/-- The spawn schedule of `spawnWave`: `enemyCount = 3 + wave * 2` calls of
`spawnEnemy`, the i-th delayed by `i * 400` milliseconds. -/
def spawnWaveSchedule (wave : ℕ) : List ℕ :=
  (List.range (3 + wave * 2)).map (fun i => i * 400)

/-- The wave-progression slice of the game state touched by `destroyEnemy`. -/
structure WaveSim where
  enemies : List Enemy
  wave : ℕ
  score : ℚ
  kills : ℕ
deriving Repr

/-- The `destroyEnemy(enemy, index)` routine restricted to simulation
state: award the archetype score times the score multiplier, increment the
kill count, remove the enemy at `index`, and if the collection is now
empty advance the wave and add the wave-completion bonus
`wave * 500 * scoreMultiplier` (with the already-incremented wave). -/
def destroyEnemy (st : WaveSim) (e : Enemy) (idx : ℕ) (mult : ℚ) : WaveSim :=
  let es := st.enemies.eraseIdx idx
  let score := st.score + enemyScore e.type * mult
  let kills := st.kills + 1
  if es.length = 0 then
    { enemies := es, wave := st.wave + 1,
      score := score + ((st.wave + 1 : ℕ) : ℚ) * 500 * mult, kills := kills }
  else
    { enemies := es, wave := st.wave, score := score, kills := kills }

/-! ## Player bullets vs enemies (`updateBullets`, lines 1169-1205;
bullet creation `createBullet`/`shoot`, lines 687-753) -/

/-- The slice of a player bullet relevant to the enemy-collision loop:
its (post-integration) position, its damage, and the `piercing` flag
copied from the player's upgrade state in `shoot`. -/
structure PBullet where
  pos : Vec3
  damage : ℚ
  piercing : Bool
deriving DecidableEq, Repr

/-- Hit radius of the player-bullet/enemy proximity check
(`distanceTo < 1.2`). -/
def bulletHitRadius : ℚ := 12/10

/-- The per-bullet enemy-collision loop of `updateBullets`: enemies are
iterated in reverse index order (modelled by recursing on the tail
first); each enemy within the hit radius takes the bullet's damage and is
removed via `destroyEnemy` when its health drops to `≤ 0`; for a
non-piercing bullet the loop sets `hit = true` and breaks after the first
hit.  Returns the surviving enemy list and the `hit` flag that removes
the bullet. -/
def hitLoop (b : PBullet) : List Enemy → List Enemy × Bool
  | [] => ([], false)
  | e :: rest =>
      let p := hitLoop b rest
      if p.2 then (e :: p.1, true)
      else if withinR b.pos e.pos bulletHitRadius then
        (if e.health - b.damage ≤ 0 then p.1
         else { e with health := e.health - b.damage } :: p.1, !b.piercing)
      else (e :: p.1, false)

/-- Effect of one piercing pass on a single enemy: damage if within the
hit radius, removal if the damage is lethal. -/
def pierceEffect (b : PBullet) (e : Enemy) : Option Enemy :=
  if withinR b.pos e.pos bulletHitRadius then
    (if e.health - b.damage ≤ 0 then none
     else some { e with health := e.health - b.damage })
  else some e

/-- Iterated application of the per-tick enemy-collision pass of a single
player bullet over consecutive ticks; once the loop flags the bullet for
removal no further ticks apply (the bullet is spliced out). -/
def hitTicks (b : PBullet) : ℕ → List Enemy → List Enemy
  | 0, es => es
  | n + 1, es =>
      let p := hitLoop b es
      if p.2 then p.1 else hitTicks b n p.1

/-! ## Enemy bullets (`updateBullets`, lines 1209-1316; destructible
bullets configured in `createBullet`, lines 708-712) -/

/-- The slice of an enemy bullet relevant to collision resolution: its
(post-integration) position, its damage, and the `canBeShot` flag that
`createBullet` sets only for `aggressive_homing` bullets. -/
structure EBullet where
  pos : Vec3
  damage : ℚ
  canBeShot : Bool
deriving DecidableEq, Repr

/-- Radius of the bullet-on-bullet destruction check (`distanceTo < 0.8`). -/
def shootdownRadius : ℚ := 8/10

/-- Radius of the enemy-bullet/player collision check (`distanceTo < 0.8`). -/
def playerHitRadius : ℚ := 8/10

/-- The shoot-down scan of `updateBullets` for a destructible enemy
bullet: player bullets are iterated in reverse index order; the first one
within the destruction radius is spliced out and the scan breaks.
Returns the surviving player bullets and whether a destruction happened. -/
def shootdownLoop (ebPos : Vec3) : List PBullet → List PBullet × Bool
  | [] => ([], false)
  | p :: rest =>
      let q := shootdownLoop ebPos rest
      if q.2 then (p :: q.1, true)
      else if withinR ebPos p.pos shootdownRadius then (rest, true)
      else (p :: rest, false)

/-- Result of resolving one enemy bullet against the player bullets and
the player in one tick. -/
structure EBResult where
  pbs : List PBullet
  health : ℚ
  score : ℚ
  ebRemoved : Bool
  shotDown : Bool
  playerCollisionChecked : Bool
deriving DecidableEq, Repr

/-- Collision resolution for one enemy bullet in `updateBullets` (after
motion integration): first, if the bullet is destructible, the shoot-down
scan runs; on success both bullets are destroyed, `50 * scoreMultiplier`
is awarded, and the rest of the tick is skipped for this bullet (the
`continue` guarded by `enemyBullets.includes`).  Otherwise the
player-collision check runs: within the player hit radius the bullet is
removed and `playerHit` applies its damage (a no-op on health while the
time shield is active). -/
def enemyBulletStep (eb : EBullet) (pbs : List PBullet) (playerPos : Vec3)
    (shield : Bool) (health score mult : ℚ) : EBResult :=
  let q := if eb.canBeShot then shootdownLoop eb.pos pbs else (pbs, false)
  if q.2 then
    ⟨q.1, health, score + 50 * mult, true, true, false⟩
  else if withinR eb.pos playerPos playerHitRadius then
    ⟨q.1, (playerHit shield health score eb.damage).health, score, true,
      false, true⟩
  else
    ⟨q.1, health, score, false, false, true⟩

/-! ## Homing (`updateBullets`, lines 1144-1161 and 1237-1240) -/

/-- Linear interpolation `a.lerp(b, t)` of `THREE.Vector3`:
the vector moves by the fraction `t` of the way toward `b`. -/
def lerpV (a b : Vec3) (t : ℚ) : Vec3 := vadd a (vsmul t (vsub b a))

/-- One homing steering update:
`velocity.lerp(u * velocity.length(), strength * gameDt * 60)`, where `u`
stands for the already-normalized direction toward the selected target
and `speed` for `velocity.length()` (so call sites satisfy
`normSq u = 1` and `speed * speed = normSq v` with `0 ≤ speed`). -/
def homingSteer (v u : Vec3) (speed strength gameDt : ℚ) : Vec3 :=
  lerpV v (vsmul speed u) (strength * gameDt * 60)

/-- Homing search radius of the player-bullet target scan (`dist < 20`). -/
def homingSearchRadius : ℚ := 20

/-- One step of the target-selection scan of the player-bullet homing
code: keep the candidate if it is strictly closer than the accumulator
and within the search radius (`dist < closestDist && dist < 20`, on
squared distances). -/
def selectTargetAux (bpos : Vec3) (acc : Option (Enemy × ℚ)) (e : Enemy) :
    Option (Enemy × ℚ) :=
  let d := distSq bpos e.pos
  match acc with
  | none =>
      if d < homingSearchRadius * homingSearchRadius then some (e, d)
      else none
  | some pr =>
      if d < pr.2 ∧ d < homingSearchRadius * homingSearchRadius then
        some (e, d)
      else some pr

/-- The nearest-enemy search of the player-bullet homing code
(`closestDist` starts at infinity, modelled by the empty accumulator). -/
def selectTarget (bpos : Vec3) (es : List Enemy) : Option Enemy :=
  (es.foldl (selectTargetAux bpos) none).map Prod.fst

/-- The enemy-bullet homing update (lines 1237-1240): whenever homing is
activated with positive strength, the velocity is steered toward the
player — this path has no search-radius condition in the source. -/
def enemyHomingVel (homingActivated : Bool) (homingStrength : ℚ)
    (v u : Vec3) (speed gameDt : ℚ) : Vec3 :=
  if homingActivated ∧ 0 < homingStrength then
    homingSteer v u speed homingStrength gameDt
  else v

/-! ## Basic lemmas -/

/-- Unfolding characterization of the proximity test. -/
theorem withinR_true (a b : Vec3) (r : ℚ) :
    withinR a b r = true ↔ distSq a b < r * r := by
  simp [withinR]

/-- Unfolding characterization of a failed proximity test. -/
theorem withinR_false (a b : Vec3) (r : ℚ) :
    withinR a b r = false ↔ ¬ distSq a b < r * r := by
  simp [withinR]

/-- Squared length is nonnegative. -/
theorem normSq_nonneg (a : Vec3) : 0 ≤ normSq a := by
  have hx := mul_self_nonneg a.x
  have hy := mul_self_nonneg a.y
  have hz := mul_self_nonneg a.z
  simp only [normSq, dot]
  linarith

/-- Health component of a `playerHit` call: unchanged under an active
shield, otherwise decreased by the damage. -/
theorem playerHit_health (shield : Bool) (health score damage : ℚ) :
    (playerHit shield health score damage).health
      = if shield then health else health - damage := by
  unfold playerHit
  by_cases hs : shield <;> by_cases hc : health - damage ≤ 0 <;>
    simp [hs, hc]

/-! ## Claim C1 -/

/-- Claim C1: for a pointer-speed average strictly below the min-velocity
threshold the target time-scale is the player's `minTimeScale` floor; at
or above the max-velocity threshold it is exactly `1`; in between it is
`minTimeScale + t^2 * (1 - minTimeScale)` with `t` the clamped linear
normalization of the average between the thresholds. -/
theorem claimC1 (v m : ℚ) :
    (v < minVelocity → updateTimeDilationTarget v m = m) ∧
    (maxVelocity ≤ v → updateTimeDilationTarget v m = 1) ∧
    (minVelocity ≤ v → v ≤ maxVelocity →
      updateTimeDilationTarget v m =
        m + ((v - minVelocity) / (maxVelocity - minVelocity)) *
            ((v - minVelocity) / (maxVelocity - minVelocity)) * (1 - m)) := by
  unfold updateTimeDilationTarget clamp01 minVelocity maxVelocity
  norm_num only
  refine ⟨?_, ?_, ?_⟩
  · intro h
    have ht : (v - 2) / 28 < 0 := div_neg_of_neg_of_pos (by linarith) (by norm_num)
    rw [min_eq_right (by linarith : (v - 2) / 28 ≤ 1),
      max_eq_left (by linarith : (v - 2) / 28 ≤ 0)]
    ring
  · intro h
    have ht : 1 ≤ (v - 2) / 28 := by
      rw [le_div_iff₀ (by norm_num : (0:ℚ) < 28)]; linarith
    rw [min_eq_left ht, max_eq_right (by norm_num : (0:ℚ) ≤ 1)]
    ring
  · intro h1 h2
    have ht0 : 0 ≤ (v - 2) / 28 := div_nonneg (by linarith) (by norm_num)
    have ht1 : (v - 2) / 28 ≤ 1 := by
      rw [div_le_one (by norm_num : (0:ℚ) < 28)]; linarith
    rw [min_eq_right ht1, max_eq_right ht0]

/-- Witness for C1 at pointer-speed averages 1 (below), 30 (at max) and
16 (in between, normalizing to 1/2), with the default floor 1/10. -/
theorem claimC1_witness :
    updateTimeDilationTarget 1 (1/10) = 1/10 ∧
    updateTimeDilationTarget 30 (1/10) = 1 ∧
    updateTimeDilationTarget 16 (1/10) = 1/10 + (1/2) * (1/2) * (1 - 1/10) := by
  refine ⟨(claimC1 1 (1/10)).1 (by norm_num [minVelocity]),
          (claimC1 30 (1/10)).2.1 (by norm_num [maxVelocity]), ?_⟩
  have h := (claimC1 16 (1/10)).2.2 (by norm_num [minVelocity])
      (by norm_num [maxVelocity])
  rw [h]
  norm_num [minVelocity, maxVelocity]

/-! ## Claim C2 -/

/-- Counterexample to C2 as stated: with health 10, shield inactive and 25
damage, `playerHit` stores health `-15`, which is negative and not `0`
(the `gameOver` event does fire). -/
theorem claimC2_cex :
    (playerHit false 10 0 25).health = -15 ∧
    (playerHit false 10 0 25).health < 0 ∧
    (playerHit false 10 0 25).gameOverFired = true := by
  refine ⟨?_, ?_, ?_⟩ <;> norm_num [playerHit]

/-- Claim C2 as amended: with the time shield inactive, when damage meets
or exceeds the current health, `playerHit` stores `health - damage`
(possibly negative; the source does not clamp), and the `gameOver` event
fires with the then-current score. -/
theorem claimC2 (health score damage : ℚ) (hd : health ≤ damage) :
    (playerHit false health score damage).health = health - damage ∧
    (playerHit false health score damage).gameOverFired = true ∧
    (playerHit false health score damage).finalScore = some score := by
  have h0 : health - damage ≤ 0 := by linarith
  simp [playerHit, h0]

/-- Witness for C2 at health 10, score 0, damage 25. -/
theorem claimC2_witness :
    (playerHit false 10 0 25).health = 10 - 25 ∧
    (playerHit false 10 0 25).gameOverFired = true ∧
    (playerHit false 10 0 25).finalScore = some 0 :=
  claimC2 10 0 25 (by norm_num)

/-! ## Claim C5 -/

/-- Claim C5: `spawnWave` schedules exactly `3 + 2n` enemy spawns for wave
`n`, and `destroyEnemy` (removing the enemy at a valid index) advances the
wave counter by one exactly when the collection transitions from
non-empty to empty — that is, exactly when it held a single enemy. -/
theorem claimC5 (n : ℕ) (st : WaveSim) (e : Enemy) (idx : ℕ) (mult : ℚ)
    (h : idx < st.enemies.length) :
    (spawnWaveSchedule n).length = 3 + 2 * n ∧
    (destroyEnemy st e idx mult).enemies.length + 1 = st.enemies.length ∧
    ((destroyEnemy st e idx mult).wave = st.wave + 1 ↔
      st.enemies.length = 1) ∧
    (st.enemies.length ≠ 1 → (destroyEnemy st e idx mult).wave = st.wave) := by
  have hlen : (st.enemies.eraseIdx idx).length + 1 = st.enemies.length :=
    List.length_eraseIdx_add_one h
  have hcount : (spawnWaveSchedule n).length = 3 + 2 * n := by
    simp [spawnWaveSchedule]; ring
  refine ⟨hcount, ?_, ?_, ?_⟩
  · unfold destroyEnemy
    by_cases he : (st.enemies.eraseIdx idx).length = 0
    · simp [he, hlen]
      omega
    · simp [he, hlen]
  · unfold destroyEnemy
    by_cases he : (st.enemies.eraseIdx idx).length = 0
    · simp only [he, if_pos rfl]
      constructor
      · intro _; omega
      · intro _; rfl
    · simp only [if_neg he]
      constructor
      · intro hw; omega
      · intro h1; omega
  · intro h1
    unfold destroyEnemy
    have he : (st.enemies.eraseIdx idx).length ≠ 0 := by omega
    simp [he]

/-- Witness for C5: a one-enemy state at index 0 advances the wave, and
wave 1 schedules 5 spawns. -/
theorem claimC5_witness :
    (spawnWaveSchedule 1).length = 3 + 2 * 1 ∧
    (destroyEnemy ⟨[⟨⟨0, 0, 0⟩, 30, .basic⟩], 1, 0, 0⟩
        ⟨⟨0, 0, 0⟩, 30, .basic⟩ 0 1).wave = 1 + 1 := by
  have h := claimC5 1 ⟨[⟨⟨0, 0, 0⟩, 30, .basic⟩], 1, 0, 0⟩
      ⟨⟨0, 0, 0⟩, 30, .basic⟩ 0 1 (by simp)
  exact ⟨h.1, h.2.2.1.mpr (by simp)⟩

/-! ## Claim C7 -/

/-- Counterexample to C7 as stated: with `canDash` false, cooldown `1/20`
and real delta `1/10`, the tick stores cooldown `-1/20`, a negative value
(the source re-enables dashing but never resets the stored cooldown to
zero). -/
theorem claimC7_cex :
    (dashCooldownTick ⟨false, 1/20, 2, false, ⟨0, 0, 0⟩⟩ (1/10)).dashCooldown
        = -(1/20) ∧
    (dashCooldownTick ⟨false, 1/20, 2, false, ⟨0, 0, 0⟩⟩ (1/10)).dashCooldown
        < 0 ∧
    (dashCooldownTick ⟨false, 1/20, 2, false, ⟨0, 0, 0⟩⟩ (1/10)).canDash
        = true := by
  refine ⟨?_, ?_, ?_⟩ <;> norm_num [dashCooldownTick]

/-- Claim C7 as amended: while `canDash` is false the dash command is a
no-op on the whole player dash state; the cooldown tick decrements the
stored cooldown by the real delta (leaving it possibly negative rather
than clamped at zero), and `canDash` becomes true exactly on the tick the
decremented cooldown reaches or crosses zero; while `canDash` is true the
cooldown tick changes nothing. -/
theorem claimC7 (s : DashState) (dir : Vec3) (dt : ℚ) :
    (s.canDash = false → tryDash s dir = s) ∧
    (s.canDash = false →
      (dashCooldownTick s dt).dashCooldown = s.dashCooldown - dt ∧
      ((dashCooldownTick s dt).canDash = true ↔ s.dashCooldown - dt ≤ 0)) ∧
    (s.canDash = true → dashCooldownTick s dt = s) := by
  refine ⟨fun h => ?_, fun h => ?_, fun h => ?_⟩
  · simp [tryDash, h]
  · unfold dashCooldownTick
    by_cases hc : s.dashCooldown - dt ≤ 0 <;> simp [h, hc]
  · simp [dashCooldownTick, h]

/-- Witness for C7: a concrete state with `canDash` false, cooldown 2,
delta 1/10, and a concrete state with `canDash` true. -/
theorem claimC7_witness :
    tryDash ⟨false, 2, 2, false, ⟨0, 0, 0⟩⟩ ⟨0, 0, -1⟩
        = ⟨false, 2, 2, false, ⟨0, 0, 0⟩⟩ ∧
    (dashCooldownTick ⟨false, 2, 2, false, ⟨0, 0, 0⟩⟩ (1/10)).dashCooldown
        = 2 - 1/10 ∧
    ((dashCooldownTick ⟨false, 2, 2, false, ⟨0, 0, 0⟩⟩ (1/10)).canDash = true
        ↔ (2:ℚ) - 1/10 ≤ 0) ∧
    dashCooldownTick ⟨true, 0, 2, false, ⟨0, 0, 0⟩⟩ (1/10)
        = ⟨true, 0, 2, false, ⟨0, 0, 0⟩⟩ := by
  refine ⟨(claimC7 ⟨false, 2, 2, false, ⟨0, 0, 0⟩⟩ ⟨0, 0, -1⟩ (1/10)).1 rfl,
    ((claimC7 ⟨false, 2, 2, false, ⟨0, 0, 0⟩⟩ ⟨0, 0, -1⟩ (1/10)).2.1 rfl).1,
    ((claimC7 ⟨false, 2, 2, false, ⟨0, 0, 0⟩⟩ ⟨0, 0, -1⟩ (1/10)).2.1 rfl).2,
    (claimC7 ⟨true, 0, 2, false, ⟨0, 0, 0⟩⟩ ⟨0, 0, -1⟩ (1/10)).2.2 rfl⟩

/-! ## Claim C3 -/

/-- A bullet whose position is not within the hit radius of any enemy
leaves the enemy list unchanged and is not flagged for removal. -/
theorem hitLoop_miss (b : PBullet) :
    ∀ es : List Enemy,
      (∀ x ∈ es, withinR b.pos x.pos bulletHitRadius = false) →
      hitLoop b es = (es, false) := by
  intro es
  induction es with
  | nil => intro _; rfl
  | cons e rest ih =>
      intro h
      have hr := ih (fun x hx => h x (List.mem_cons_of_mem _ hx))
      have he := h e (List.mem_cons_self _ _)
      simp [hitLoop, hr, he]

/-- A piercing bullet applies its damage to every enemy within the hit
radius in one pass and is never flagged for removal by the hits. -/
theorem hitLoop_pierce (b : PBullet) (hp : b.piercing = true) :
    ∀ es : List Enemy,
      hitLoop b es = (es.filterMap (pierceEffect b), false) := by
  intro es
  induction es with
  | nil => rfl
  | cons e rest ih =>
      by_cases hw : withinR b.pos e.pos bulletHitRadius
      · by_cases hh : e.health - b.damage ≤ 0
        · simp [hitLoop, ih, pierceEffect, hw, hh, hp]
        · simp [hitLoop, ih, pierceEffect, hw, hh, hp]
      · simp [hitLoop, ih, pierceEffect, hw]

/-- A non-piercing bullet damages exactly the first enemy in reverse
iteration order that lies within the hit radius, breaks there, and is
flagged for removal. -/
theorem hitLoop_break (b : PBullet) (hp : b.piercing = false) (e : Enemy)
    (hw : withinR b.pos e.pos bulletHitRadius = true) :
    ∀ l₁ l₂ : List Enemy,
      (∀ x ∈ l₂, withinR b.pos x.pos bulletHitRadius = false) →
      hitLoop b (l₁ ++ e :: l₂) =
        (l₁ ++ (if e.health - b.damage ≤ 0 then [] else
            [{ e with health := e.health - b.damage }]) ++ l₂, true) := by
  intro l₁
  induction l₁ with
  | nil =>
      intro l₂ h2
      have hmiss := hitLoop_miss b l₂ h2
      by_cases hh : e.health - b.damage ≤ 0 <;>
        simp [hitLoop, hmiss, hw, hh, hp]
  | cons a l₁ ih =>
      intro l₂ h2
      simp [hitLoop, ih l₂ h2]

/-- Claim C3: in one `updateBullets` tick, a piercing player bullet
within the hit radius of N enemies damages all N of them and is not
removed by the hits; a non-piercing bullet damages at most one enemy —
exactly the first one encountered in reverse iteration order — and is
removed immediately after that first hit (and a bullet overlapping no
enemy damages none and is not removed). -/
theorem claimC3 (b : PBullet) (es l₁ l₂ : List Enemy) (e : Enemy) :
    (b.piercing = true →
      hitLoop b es = (es.filterMap (pierceEffect b), false)) ∧
    (b.piercing = false → es = l₁ ++ e :: l₂ →
      withinR b.pos e.pos bulletHitRadius = true →
      (∀ x ∈ l₂, withinR b.pos x.pos bulletHitRadius = false) →
      hitLoop b es =
        (l₁ ++ (if e.health - b.damage ≤ 0 then [] else
            [{ e with health := e.health - b.damage }]) ++ l₂, true)) ∧
    ((∀ x ∈ es, withinR b.pos x.pos bulletHitRadius = false) →
      hitLoop b es = (es, false)) := by
  refine ⟨fun hp => hitLoop_pierce b hp es, fun hp hes hw h2 => ?_,
    fun h => hitLoop_miss b es h⟩
  subst hes
  exact hitLoop_break b hp e hw l₁ l₂ h2

/-- Witness for C3: a piercing bullet at the origin damages both
overlapping enemies (killing the weak one) and survives; a non-piercing
bullet damages only the last-indexed overlapping enemy and is removed; a
bullet far from the only enemy does nothing. -/
theorem claimC3_witness :
    hitLoop ⟨⟨0, 0, 0⟩, 10, true⟩
        [⟨⟨0, 0, 0⟩, 30, .basic⟩, ⟨⟨0, 1, 0⟩, 5, .fast⟩]
      = ([⟨⟨0, 0, 0⟩, 20, .basic⟩], false) ∧
    hitLoop ⟨⟨0, 0, 0⟩, 10, false⟩
        [⟨⟨0, 0, 0⟩, 30, .basic⟩, ⟨⟨0, 1, 0⟩, 5, .fast⟩]
      = ([⟨⟨0, 0, 0⟩, 30, .basic⟩], true) ∧
    hitLoop ⟨⟨0, 0, 0⟩, 10, false⟩ [⟨⟨30, 0, 0⟩, 30, .basic⟩]
      = ([⟨⟨30, 0, 0⟩, 30, .basic⟩], false) := by
  have h1 := (claimC3 ⟨⟨0, 0, 0⟩, 10, true⟩
      [⟨⟨0, 0, 0⟩, 30, .basic⟩, ⟨⟨0, 1, 0⟩, 5, .fast⟩]
      [] [] ⟨⟨0, 0, 0⟩, 0, .basic⟩).1 rfl
  have h2 := (claimC3 ⟨⟨0, 0, 0⟩, 10, false⟩
      [⟨⟨0, 0, 0⟩, 30, .basic⟩, ⟨⟨0, 1, 0⟩, 5, .fast⟩]
      [⟨⟨0, 0, 0⟩, 30, .basic⟩] [] ⟨⟨0, 1, 0⟩, 5, .fast⟩).2.1 rfl rfl
      (by rw [withinR_true]
          norm_num [distSq, normSq, dot, vsub, bulletHitRadius])
      (by simp)
  have h3 := (claimC3 ⟨⟨0, 0, 0⟩, 10, false⟩ [⟨⟨30, 0, 0⟩, 30, .basic⟩]
      [] [] ⟨⟨0, 0, 0⟩, 0, .basic⟩).2.2
      (by intro x hx
          rw [List.mem_singleton] at hx
          subst hx
          rw [withinR_false]
          norm_num [distSq, normSq, dot, vsub, bulletHitRadius])
  have w1 : withinR ⟨0, 0, 0⟩ ⟨0, 0, 0⟩ bulletHitRadius = true := by
    rw [withinR_true]; norm_num [distSq, normSq, dot, vsub, bulletHitRadius]
  have w2 : withinR ⟨0, 0, 0⟩ ⟨0, 1, 0⟩ bulletHitRadius = true := by
    rw [withinR_true]; norm_num [distSq, normSq, dot, vsub, bulletHitRadius]
  refine ⟨?_, ?_, h3⟩
  · rw [h1]
    norm_num [pierceEffect, w1, w2, List.filterMap_cons, List.filterMap_nil]
  · rw [h2]
    norm_num

/-! ## Claim C10 -/

/-- Claim C10: a piercing player bullet that stays within the hit radius
of the same surviving enemy over n consecutive ticks damages it again on
every tick — there is no per-enemy already-hit record, so its health
drops by `n * damage` after n ticks. -/
theorem claimC10 (b : PBullet) (e : Enemy) (n : ℕ) (hp : b.piercing = true)
    (hw : withinR b.pos e.pos bulletHitRadius = true) (hd : 0 ≤ b.damage)
    (hh : (n : ℚ) * b.damage < e.health) :
    hitTicks b n [e] = [{ e with health := e.health - n * b.damage }] := by
  induction n generalizing e with
  | zero => simp [hitTicks]
  | succ k ih =>
      have hsur : ¬ e.health - b.damage ≤ 0 := by
        push_cast at hh; nlinarith
      have hstep : hitLoop b [e]
          = ([{ e with health := e.health - b.damage }], false) := by
        simp [hitLoop, hw, hsur, hp]
      have hw2 : withinR b.pos
          ({ e with health := e.health - b.damage } : Enemy).pos
          bulletHitRadius = true := hw
      have hh2 : (k : ℚ) * b.damage
          < ({ e with health := e.health - b.damage } : Enemy).health := by
        show (k : ℚ) * b.damage < e.health - b.damage
        push_cast at hh
        linarith
      have harith : e.health - b.damage - (k : ℚ) * b.damage
          = e.health - ((k + 1 : ℕ) : ℚ) * b.damage := by
        push_cast; ring
      simp only [hitTicks, hstep]
      rw [if_neg (by simp), ih _ hw2 hh2]
      simp [harith]

/-- Witness for C10: a piercing 10-damage bullet overlapping a 35-health
enemy for 3 consecutive ticks leaves it at 5 health. -/
theorem claimC10_witness :
    hitTicks ⟨⟨0, 0, 0⟩, 10, true⟩ 3 [⟨⟨0, 0, 0⟩, 35, .basic⟩]
      = [⟨⟨0, 0, 0⟩, 5, .basic⟩] := by
  have h := claimC10 ⟨⟨0, 0, 0⟩, 10, true⟩ ⟨⟨0, 0, 0⟩, 35, .basic⟩ 3 rfl
      (by rw [withinR_true]
          norm_num [distSq, normSq, dot, vsub, bulletHitRadius])
      (by norm_num) (by norm_num)
  rw [h]
  norm_num

/-! ## Claim C9 -/

/-- Counterexample to C9 as stated: with the collection holding exactly
150 particles, `createParticle` still adds one (the source guard is
`length > 150`, not `length >= 150`), so the population reaches 151,
exceeding 150. -/
theorem claimC9_cex :
    (createParticle (List.replicate 150 ⟨⟨0, 0, 0⟩, ⟨0, 0, 0⟩, 1, 1⟩)
        ⟨0, 0, 0⟩ ⟨0, 0, 0⟩ 1).length = 151 := by
  simp [createParticle]

/-- Claim C9 as amended: the particle population never exceeds 151: a
spawn request is silently dropped exactly when the collection already
holds more than 150 particles, and otherwise exactly one particle is
appended; consequently from any population of at most 151 the population
stays at most 151. -/
theorem claimC9 (ps : List Particle) (position velocity : Vec3) (life : ℚ) :
    (ps.length ≤ 150 →
      createParticle ps position velocity life
        = ps ++ [⟨position, velocity, life, life⟩] ∧
      (createParticle ps position velocity life).length = ps.length + 1) ∧
    (150 < ps.length → createParticle ps position velocity life = ps) ∧
    (ps.length ≤ 151 →
      (createParticle ps position velocity life).length ≤ 151) := by
  refine ⟨fun h => ?_, fun h => ?_, fun h => ?_⟩
  · have hc : ¬ 150 < ps.length := by omega
    simp [createParticle, hc]
  · simp [createParticle, h]
  · unfold createParticle
    by_cases hc : 150 < ps.length <;> simp [hc] <;> omega

/-- Witness for C9: an empty collection accepts a particle; a collection
of 151 drops the request and stays at 151. -/
theorem claimC9_witness :
    (createParticle ([] : List Particle) ⟨0, 0, 0⟩ ⟨0, 0, 0⟩ 1).length
        = ([] : List Particle).length + 1 ∧
    createParticle (List.replicate 151 ⟨⟨0, 0, 0⟩, ⟨0, 0, 0⟩, 1, 1⟩)
        ⟨0, 0, 0⟩ ⟨0, 0, 0⟩ 1
      = List.replicate 151 ⟨⟨0, 0, 0⟩, ⟨0, 0, 0⟩, 1, 1⟩ ∧
    (createParticle (List.replicate 151 ⟨⟨0, 0, 0⟩, ⟨0, 0, 0⟩, 1, 1⟩)
        ⟨0, 0, 0⟩ ⟨0, 0, 0⟩ 1).length ≤ 151 := by
  refine ⟨((claimC9 ([] : List Particle) ⟨0, 0, 0⟩ ⟨0, 0, 0⟩ 1).1 (by simp)).2,
    (claimC9 (List.replicate 151 ⟨⟨0, 0, 0⟩, ⟨0, 0, 0⟩, 1, 1⟩)
        ⟨0, 0, 0⟩ ⟨0, 0, 0⟩ 1).2.1 (by simp),
    (claimC9 (List.replicate 151 ⟨⟨0, 0, 0⟩, ⟨0, 0, 0⟩, 1, 1⟩)
        ⟨0, 0, 0⟩ ⟨0, 0, 0⟩ 1).2.2 (by simp)⟩

/-! ## Claim C4 -/

/-- A shoot-down scan that finds no player bullet in range changes
nothing and reports no destruction. -/
theorem shootdownLoop_miss (ebPos : Vec3) :
    ∀ pbs : List PBullet,
      (∀ p ∈ pbs, withinR ebPos p.pos shootdownRadius = false) →
      shootdownLoop ebPos pbs = (pbs, false) := by
  intro pbs
  induction pbs with
  | nil => intro _; rfl
  | cons p rest ih =>
      intro h
      have hr := ih (fun x hx => h x (List.mem_cons_of_mem _ hx))
      have hp := h p (List.mem_cons_self _ _)
      simp [shootdownLoop, hr, hp]

/-- A shoot-down scan with no destruction leaves the player-bullet list
untouched. -/
theorem shootdownLoop_noflag (ebPos : Vec3) :
    ∀ pbs : List PBullet,
      (shootdownLoop ebPos pbs).2 = false →
      (shootdownLoop ebPos pbs).1 = pbs := by
  intro pbs
  induction pbs with
  | nil => intro _; rfl
  | cons p rest ih =>
      intro h
      by_cases hq : (shootdownLoop ebPos rest).2
      · rw [shootdownLoop] at h
        simp [hq] at h
      · by_cases hw : withinR ebPos p.pos shootdownRadius
        · rw [shootdownLoop] at h
          simp [hq, hw] at h
        · rw [shootdownLoop]
          simp [hq, hw]

/-- A shoot-down scan that has some player bullet in range destroys
exactly one of them and reports the destruction. -/
theorem shootdownLoop_hit (ebPos : Vec3) :
    ∀ pbs : List PBullet,
      (∃ p ∈ pbs, withinR ebPos p.pos shootdownRadius = true) →
      (shootdownLoop ebPos pbs).2 = true ∧
      (shootdownLoop ebPos pbs).1.length + 1 = pbs.length := by
  intro pbs
  induction pbs with
  | nil => rintro ⟨p, hp, _⟩; cases hp
  | cons p rest ih =>
      rintro ⟨x, hx, hxw⟩
      by_cases hrest : ∃ y ∈ rest, withinR ebPos y.pos shootdownRadius = true
      · obtain ⟨hf, hl⟩ := ih hrest
        constructor
        · simp [shootdownLoop, hf]
        · simp only [shootdownLoop, hf, if_true, List.length_cons]
          omega
      · have hall : ∀ y ∈ rest,
            withinR ebPos y.pos shootdownRadius = false := by
          intro y hy
          cases hb : withinR ebPos y.pos shootdownRadius with
          | false => rfl
          | true => exact absurd ⟨y, hy, hb⟩ hrest
        have hpw : withinR ebPos p.pos shootdownRadius = true := by
          rcases List.mem_cons.mp hx with rfl | hmem
          · exact hxw
          · exact absurd hxw (by simp [hall x hmem])
        have hmiss := shootdownLoop_miss ebPos rest hall
        rw [shootdownLoop]
        simp [hmiss, hpw]

/-- Claim C4: when a destructible (aggressive-homing) enemy bullet has
some player bullet within the destruction radius in a tick, the
resolution destroys the enemy bullet and exactly one player bullet, adds
the 50-point destruction bonus (times the score multiplier) to the score
exactly once, runs before — and thereby skips — the bullet's
player-collision check, and leaves the player's health untouched. -/
theorem claimC4 (eb : EBullet) (pbs : List PBullet) (playerPos : Vec3)
    (shield : Bool) (health score mult : ℚ)
    (hc : eb.canBeShot = true)
    (hex : ∃ p ∈ pbs, withinR eb.pos p.pos shootdownRadius = true) :
    (enemyBulletStep eb pbs playerPos shield health score mult).ebRemoved
        = true ∧
    (enemyBulletStep eb pbs playerPos shield health score mult).shotDown
        = true ∧
    (enemyBulletStep eb pbs playerPos shield health score mult).pbs.length
        + 1 = pbs.length ∧
    (enemyBulletStep eb pbs playerPos shield health score mult).score
        = score + 50 * mult ∧
    (enemyBulletStep eb pbs playerPos shield health score
        mult).playerCollisionChecked = false ∧
    (enemyBulletStep eb pbs playerPos shield health score mult).health
        = health := by
  obtain ⟨hf, hl⟩ := shootdownLoop_hit eb.pos pbs hex
  unfold enemyBulletStep
  simp [hc, hf, hl]

/-- Witness for C4: an aggressive-homing bullet at the origin with one
player bullet in range and the player also overlapping — the bullets
mutually destroy, the bonus is scored once, and the player is untouched. -/
theorem claimC4_witness :
    (enemyBulletStep ⟨⟨0, 0, 0⟩, 10, true⟩ [⟨⟨0, 0, 1/2⟩, 25, false⟩]
        ⟨0, 0, 0⟩ false 100 0 1).ebRemoved = true ∧
    (enemyBulletStep ⟨⟨0, 0, 0⟩, 10, true⟩ [⟨⟨0, 0, 1/2⟩, 25, false⟩]
        ⟨0, 0, 0⟩ false 100 0 1).pbs.length + 1 = 1 ∧
    (enemyBulletStep ⟨⟨0, 0, 0⟩, 10, true⟩ [⟨⟨0, 0, 1/2⟩, 25, false⟩]
        ⟨0, 0, 0⟩ false 100 0 1).score = 0 + 50 * 1 ∧
    (enemyBulletStep ⟨⟨0, 0, 0⟩, 10, true⟩ [⟨⟨0, 0, 1/2⟩, 25, false⟩]
        ⟨0, 0, 0⟩ false 100 0 1).playerCollisionChecked = false ∧
    (enemyBulletStep ⟨⟨0, 0, 0⟩, 10, true⟩ [⟨⟨0, 0, 1/2⟩, 25, false⟩]
        ⟨0, 0, 0⟩ false 100 0 1).health = 100 := by
  have h := claimC4 ⟨⟨0, 0, 0⟩, 10, true⟩ [⟨⟨0, 0, 1/2⟩, 25, false⟩]
      ⟨0, 0, 0⟩ false 100 0 1 rfl
      ⟨⟨⟨0, 0, 1/2⟩, 25, false⟩, by simp,
        by rw [withinR_true]
           norm_num [distSq, normSq, dot, vsub, shootdownRadius]⟩
  exact ⟨h.1, h.2.2.1, h.2.2.2.1, h.2.2.2.2.1, h.2.2.2.2.2⟩

/-! ## Claim C8 -/

/-- Claim C8: when an enemy bullet is within the player hit radius and
its shoot-down scan did not fire (in particular for any non-destructible
bullet), the bullet is removed in both shield cases; with the time shield
active the player's health is unchanged, without it the bullet's damage
is subtracted from the health; the player-bullet list and the score are
unchanged by the collision. -/
theorem claimC8 (eb : EBullet) (pbs : List PBullet) (playerPos : Vec3)
    (shield : Bool) (health score mult : ℚ)
    (hnosd : eb.canBeShot = true → (shootdownLoop eb.pos pbs).2 = false)
    (hw : withinR eb.pos playerPos playerHitRadius = true) :
    (enemyBulletStep eb pbs playerPos shield health score mult).ebRemoved
        = true ∧
    (enemyBulletStep eb pbs playerPos shield health score mult).pbs
        = pbs ∧
    (enemyBulletStep eb pbs playerPos shield health score mult).score
        = score ∧
    (shield = true →
      (enemyBulletStep eb pbs playerPos shield health score mult).health
        = health) ∧
    (shield = false →
      (enemyBulletStep eb pbs playerPos shield health score mult).health
        = health - eb.damage) := by
  unfold enemyBulletStep
  by_cases hcb : eb.canBeShot
  · have hf := hnosd hcb
    have hlist := shootdownLoop_noflag eb.pos pbs hf
    refine ⟨?_, ?_, ?_, fun hs => ?_, fun hs => ?_⟩
    · simp [hcb, hf, hlist, hw]
    · simp [hcb, hf, hlist, hw]
    · simp [hcb, hf, hlist, hw]
    · simp [hcb, hf, hlist, hw, playerHit_health, hs]
    · simp [hcb, hf, hlist, hw, playerHit_health, hs]
  · refine ⟨?_, ?_, ?_, fun hs => ?_, fun hs => ?_⟩
    · simp [hcb, hw]
    · simp [hcb, hw]
    · simp [hcb, hw]
    · simp [hcb, hw, playerHit_health, hs]
    · simp [hcb, hw, playerHit_health, hs]

/-- Witness for C8: a standard enemy bullet overlapping the player is
absorbed without damage while the shield is active and deals its 10
damage without it; the bullet is removed in both cases. -/
theorem claimC8_witness :
    (enemyBulletStep ⟨⟨0, 0, 0⟩, 10, false⟩ [] ⟨0, 0, 0⟩ true 100 0
        1).ebRemoved = true ∧
    (enemyBulletStep ⟨⟨0, 0, 0⟩, 10, false⟩ [] ⟨0, 0, 0⟩ true 100 0
        1).health = 100 ∧
    (enemyBulletStep ⟨⟨0, 0, 0⟩, 10, false⟩ [] ⟨0, 0, 0⟩ false 100 0
        1).health = 100 - 10 ∧
    (enemyBulletStep ⟨⟨0, 0, 0⟩, 10, false⟩ [] ⟨0, 0, 0⟩ false 100 0
        1).ebRemoved = true := by
  have hwin : withinR (⟨0, 0, 0⟩ : Vec3) ⟨0, 0, 0⟩ playerHitRadius
      = true := by
    rw [withinR_true]
    norm_num [distSq, normSq, dot, vsub, playerHitRadius]
  have h1 := claimC8 ⟨⟨0, 0, 0⟩, 10, false⟩ [] ⟨0, 0, 0⟩ true 100 0 1
      (by intro h; simp at h) hwin
  have h2 := claimC8 ⟨⟨0, 0, 0⟩, 10, false⟩ [] ⟨0, 0, 0⟩ false 100 0 1
      (by intro h; simp at h) hwin
  exact ⟨h1.1, h1.2.2.2.1 rfl, h2.2.2.2.2 rfl, h2.1⟩

/-! ## Claim C6 -/

/-- Selection step from the empty accumulator on an in-range candidate. -/
theorem selectTargetAux_none_in (bpos : Vec3) (e : Enemy)
    (hd : distSq bpos e.pos < homingSearchRadius * homingSearchRadius) :
    selectTargetAux bpos none e = some (e, distSq bpos e.pos) := by
  simp [selectTargetAux, hd]

/-- Selection step from the empty accumulator on an out-of-range
candidate. -/
theorem selectTargetAux_none_out (bpos : Vec3) (e : Enemy)
    (hd : ¬ distSq bpos e.pos < homingSearchRadius * homingSearchRadius) :
    selectTargetAux bpos none e = none := by
  simp [selectTargetAux, hd]

/-- Selection step on a candidate that beats the accumulator. -/
theorem selectTargetAux_some_in (bpos : Vec3) (pr : Enemy × ℚ) (e : Enemy)
    (hc : distSq bpos e.pos < pr.2 ∧
      distSq bpos e.pos < homingSearchRadius * homingSearchRadius) :
    selectTargetAux bpos (some pr) e = some (e, distSq bpos e.pos) := by
  simp [selectTargetAux, hc.1, hc.2]

/-- Selection step on a candidate that does not beat the accumulator. -/
theorem selectTargetAux_some_out (bpos : Vec3) (pr : Enemy × ℚ) (e : Enemy)
    (hc : ¬ (distSq bpos e.pos < pr.2 ∧
      distSq bpos e.pos < homingSearchRadius * homingSearchRadius)) :
    selectTargetAux bpos (some pr) e = some pr := by
  simp only [selectTargetAux]
  rw [if_neg hc]

/-- Every result of the target-selection fold carries its own squared
distance, which lies strictly inside the search radius. -/
theorem selectTarget_fold_radius (bpos : Vec3) :
    ∀ (es : List Enemy) (acc : Option (Enemy × ℚ)),
      (∀ pr : Enemy × ℚ, acc = some pr →
        pr.2 = distSq bpos pr.1.pos ∧
        pr.2 < homingSearchRadius * homingSearchRadius) →
      ∀ pr : Enemy × ℚ,
        es.foldl (selectTargetAux bpos) acc = some pr →
        pr.2 = distSq bpos pr.1.pos ∧
        pr.2 < homingSearchRadius * homingSearchRadius := by
  intro es
  induction es with
  | nil => intro acc hacc pr h; exact hacc pr (by simpa using h)
  | cons e rest ih =>
      intro acc hacc pr h
      rw [List.foldl_cons] at h
      refine ih (selectTargetAux bpos acc e) ?_ pr h
      intro pr2 hpr2
      cases acc with
      | none =>
          by_cases hd : distSq bpos e.pos
              < homingSearchRadius * homingSearchRadius
          · rw [selectTargetAux_none_in bpos e hd] at hpr2
            cases Option.some.inj hpr2
            exact ⟨rfl, hd⟩
          · rw [selectTargetAux_none_out bpos e hd] at hpr2
            exact Option.noConfusion hpr2
      | some pr1 =>
          by_cases hc : distSq bpos e.pos < pr1.2 ∧
              distSq bpos e.pos < homingSearchRadius * homingSearchRadius
          · rw [selectTargetAux_some_in bpos pr1 e hc] at hpr2
            cases Option.some.inj hpr2
            exact ⟨rfl, hc.2⟩
          · rw [selectTargetAux_some_out bpos pr1 e hc] at hpr2
            cases Option.some.inj hpr2
            exact hacc _ rfl

/-- The target-selection fold returns a squared distance that undercuts
the accumulator and every in-range enemy of the scanned list. -/
theorem selectTarget_fold_min (bpos : Vec3) :
    ∀ (es : List Enemy) (acc : Option (Enemy × ℚ)) (pr : Enemy × ℚ),
      es.foldl (selectTargetAux bpos) acc = some pr →
      (∀ pr0 : Enemy × ℚ, acc = some pr0 → pr.2 ≤ pr0.2) ∧
      (∀ x ∈ es,
        distSq bpos x.pos < homingSearchRadius * homingSearchRadius →
        pr.2 ≤ distSq bpos x.pos) := by
  intro es
  induction es with
  | nil =>
      intro acc pr h
      refine ⟨fun pr0 h0 => ?_, by simp⟩
      rw [h0] at h
      cases Option.some.inj (by simpa using h)
      exact le_refl _
  | cons e rest ih =>
      intro acc pr h
      rw [List.foldl_cons] at h
      obtain ⟨ha, hr⟩ := ih (selectTargetAux bpos acc e) pr h
      cases acc with
      | none =>
          refine ⟨fun pr0 h0 => Option.noConfusion h0,
            fun x hx hdx => ?_⟩
          rcases List.mem_cons.mp hx with rfl | hmem
          · exact ha (x, distSq bpos x.pos)
              (selectTargetAux_none_in bpos x hdx)
          · exact hr x hmem hdx
      | some pr1 =>
          by_cases hc : distSq bpos e.pos < pr1.2 ∧
              distSq bpos e.pos < homingSearchRadius * homingSearchRadius
          · have hle := ha (e, distSq bpos e.pos)
                (selectTargetAux_some_in bpos pr1 e hc)
            refine ⟨fun pr0 h0 => ?_, fun x hx hdx => ?_⟩
            · cases Option.some.inj h0
              exact le_trans hle (le_of_lt hc.1)
            · rcases List.mem_cons.mp hx with rfl | hmem
              · exact hle
              · exact hr x hmem hdx
          · have hle := ha pr1 (selectTargetAux_some_out bpos pr1 e hc)
            refine ⟨fun pr0 h0 => ?_, fun x hx hdx => ?_⟩
            · cases Option.some.inj h0
              exact hle
            · rcases List.mem_cons.mp hx with rfl | hmem
              · have hnl : ¬ distSq bpos x.pos < pr1.2 :=
                  fun hlt => hc ⟨hlt, hdx⟩
                exact le_trans hle (not_lt.mp hnl)
              · exact hr x hmem hdx

/-- The target-selection fold returns an element of the scanned list or
the accumulator itself. -/
theorem selectTarget_fold_mem (bpos : Vec3) :
    ∀ (es : List Enemy) (acc : Option (Enemy × ℚ)) (pr : Enemy × ℚ),
      es.foldl (selectTargetAux bpos) acc = some pr →
      pr.1 ∈ es ∨ acc = some pr := by
  intro es
  induction es with
  | nil =>
      intro acc pr h
      exact Or.inr (by simpa using h)
  | cons e rest ih =>
      intro acc pr h
      rw [List.foldl_cons] at h
      rcases ih (selectTargetAux bpos acc e) pr h with hm | heq
      · exact Or.inl (List.mem_cons_of_mem _ hm)
      · cases acc with
        | none =>
            by_cases hd : distSq bpos e.pos
                < homingSearchRadius * homingSearchRadius
            · rw [selectTargetAux_none_in bpos e hd] at heq
              cases Option.some.inj heq
              exact Or.inl (List.mem_cons_self _ _)
            · rw [selectTargetAux_none_out bpos e hd] at heq
              exact Option.noConfusion heq
        | some pr1 =>
            by_cases hc : distSq bpos e.pos < pr1.2 ∧
                distSq bpos e.pos < homingSearchRadius * homingSearchRadius
            · rw [selectTargetAux_some_in bpos pr1 e hc] at heq
              cases Option.some.inj heq
              exact Or.inl (List.mem_cons_self _ _)
            · rw [selectTargetAux_some_out bpos pr1 e hc] at heq
              cases Option.some.inj heq
              exact Or.inr rfl

/-- Counterexample to C6 as stated.  First part: a concrete homing step
(active homing, positive strength, unit target direction, speed equal to
the velocity's length) changes the squared speed, so the velocity
magnitude is not preserved.  Second part: the enemy-bullet homing update
steers even though the player is 300 units away — far outside the
20-unit search radius the claim asserts — so enemy-bullet homing has no
search-radius restriction. -/
theorem claimC6_cex :
    ((0:ℚ) < 15/100 ∧
      normSq ⟨0, 1, 0⟩ = 1 ∧
      (1:ℚ) * 1 = normSq ⟨1, 0, 0⟩ ∧
      normSq (homingSteer ⟨1, 0, 0⟩ ⟨0, 1, 0⟩ 1 (15/100) (1/18))
        ≠ normSq (⟨1, 0, 0⟩ : Vec3)) ∧
    ((0:ℚ) < 4/10 ∧
      homingSearchRadius * homingSearchRadius
        < distSq ⟨0, 0, 0⟩ ⟨300, 0, 0⟩ ∧
      normSq ⟨1, 0, 0⟩ = 1 ∧
      vsmul 300 ⟨1, 0, 0⟩ = vsub ⟨300, 0, 0⟩ ⟨0, 0, 0⟩ ∧
      (10:ℚ) * 10 = normSq ⟨0, 0, -10⟩ ∧
      enemyHomingVel true (4/10) ⟨0, 0, -10⟩ ⟨1, 0, 0⟩ 10 (1/60)
        = ⟨4, 0, -6⟩ ∧
      (⟨4, 0, -6⟩ : Vec3) ≠ ⟨0, 0, -10⟩) := by
  refine ⟨⟨by norm_num, ?_, ?_, ?_⟩,
    by norm_num, ?_, ?_, ?_, ?_, ?_, ?_⟩
  · norm_num [normSq, dot]
  · norm_num [normSq, dot]
  · norm_num [homingSteer, lerpV, vadd, vsmul, vsub, normSq, dot]
  · norm_num [homingSearchRadius, distSq, normSq, dot, vsub]
  · norm_num [normSq, dot]
  · norm_num [vsmul, vsub, Vec3.mk.injEq]
  · norm_num [normSq, dot]
  · norm_num [enemyHomingVel, homingSteer, lerpV, vadd, vsmul, vsub,
      Vec3.mk.injEq]
  · simp only [ne_eq, Vec3.mk.injEq]
    norm_num

/-- Claim C6 as amended: the player-bullet homing search selects an
enemy of the scanned list, only within the 20-unit search radius, and it
is a nearest in-range one; the enemy-bullet homing update steers toward
the player whenever homing is active with positive strength, with no
search-radius restriction; the steering interpolates the velocity toward
the target direction scaled by the current speed, so for an
interpolation factor `strength * gameDt * 60` in `[0, 1]` the speed
never increases (exact preservation holds only in degenerate cases). -/
theorem claimC6 (v u : Vec3) (speed strength gameDt : ℚ) (bpos : Vec3)
    (es : List Enemy) (e : Enemy) (activated : Bool)
    (hu : normSq u = 1) (hs : speed * speed = normSq v)
    (ha0 : 0 ≤ strength * gameDt * 60) (ha1 : strength * gameDt * 60 ≤ 1) :
    normSq (homingSteer v u speed strength gameDt) ≤ normSq v ∧
    (selectTarget bpos es = some e →
      e ∈ es ∧
      distSq bpos e.pos < homingSearchRadius * homingSearchRadius ∧
      ∀ x ∈ es,
        distSq bpos x.pos < homingSearchRadius * homingSearchRadius →
        distSq bpos e.pos ≤ distSq bpos x.pos) ∧
    (activated = true → 0 < strength →
      enemyHomingVel activated strength v u speed gameDt
        = homingSteer v u speed strength gameDt) := by
  refine ⟨?_, ?_, ?_⟩
  · have hwv : normSq (vsmul speed u) = normSq v := by
      have hexp : normSq (vsmul speed u) = speed * speed * normSq u := by
        simp only [normSq, dot, vsmul]
        ring
      rw [hexp, hu, hs]
      ring
    have hdot : dot v (vsmul speed u) ≤ normSq v := by
      have h0 : 0 ≤ normSq (vsub v (vsmul speed u)) := normSq_nonneg _
      have hexp : normSq (vsub v (vsmul speed u))
          = normSq v - 2 * dot v (vsmul speed u)
            + normSq (vsmul speed u) := by
        simp only [normSq, dot, vsub, vsmul]
        ring
      rw [hexp, hwv] at h0
      linarith
    have hval : normSq (homingSteer v u speed strength gameDt)
        = (1 - strength * gameDt * 60) * (1 - strength * gameDt * 60)
            * normSq v
          + 2 * (strength * gameDt * 60) * (1 - strength * gameDt * 60)
            * dot v (vsmul speed u)
          + (strength * gameDt * 60) * (strength * gameDt * 60)
            * normSq (vsmul speed u) := by
      simp only [homingSteer, lerpV, normSq, dot, vadd, vsmul, vsub]
      ring
    rw [hval, hwv]
    nlinarith [mul_nonneg
        (mul_nonneg ha0 (by linarith : (0:ℚ) ≤ 1 - strength * gameDt * 60))
        (sub_nonneg.mpr hdot),
      normSq_nonneg v]
  · intro h
    cases hopt : es.foldl (selectTargetAux bpos) none with
    | none =>
        rw [selectTarget, hopt] at h
        exact Option.noConfusion h
    | some pr =>
        rw [selectTarget, hopt] at h
        have hfst : pr.1 = e := by simpa using h
        have hrad := selectTarget_fold_radius bpos es none
            (fun pr0 h0 => Option.noConfusion h0) pr hopt
        have hmin := selectTarget_fold_min bpos es none pr hopt
        have hmem := selectTarget_fold_mem bpos es none pr hopt
        subst hfst
        refine ⟨?_, ?_, ?_⟩
        · rcases hmem with hm | hm
          · exact hm
          · exact Option.noConfusion hm
        · rw [← hrad.1]
          exact hrad.2
        · intro x hx hdx
          have hle := hmin.2 x hx hdx
          rw [hrad.1] at hle
          exact hle
  · intro h1 h2
    simp [enemyHomingVel, h1, h2]

/-- Witness for C6: a steering step on velocity (3,4,0) of length 5 with
interpolation factor 1/2; a single enemy 1 unit away, which the search
selects, lies in range, and is trivially nearest; and an active
enemy-bullet homing update. -/
theorem claimC6_witness :
    normSq (homingSteer ⟨3, 4, 0⟩ ⟨0, 1, 0⟩ 5 (15/100) (1/18))
        ≤ normSq ⟨3, 4, 0⟩ ∧
    ((⟨⟨1, 0, 0⟩, 30, .basic⟩ : Enemy)
        ∈ ([⟨⟨1, 0, 0⟩, 30, .basic⟩] : List Enemy) ∧
      distSq ⟨0, 0, 0⟩ (⟨1, 0, 0⟩ : Vec3)
        < homingSearchRadius * homingSearchRadius ∧
      ∀ x ∈ ([⟨⟨1, 0, 0⟩, 30, .basic⟩] : List Enemy),
        distSq ⟨0, 0, 0⟩ x.pos < homingSearchRadius * homingSearchRadius →
        distSq ⟨0, 0, 0⟩ (⟨1, 0, 0⟩ : Vec3) ≤ distSq ⟨0, 0, 0⟩ x.pos) ∧
    enemyHomingVel true (15/100) ⟨3, 4, 0⟩ ⟨0, 1, 0⟩ 5 (1/18)
      = homingSteer ⟨3, 4, 0⟩ ⟨0, 1, 0⟩ 5 (15/100) (1/18) := by
  have h := claimC6 ⟨3, 4, 0⟩ ⟨0, 1, 0⟩ 5 (15/100) (1/18) ⟨0, 0, 0⟩
      [⟨⟨1, 0, 0⟩, 30, .basic⟩] ⟨⟨1, 0, 0⟩, 30, .basic⟩ true
      (by norm_num [normSq, dot]) (by norm_num [normSq, dot])
      (by norm_num) (by norm_num)
  refine ⟨h.1, h.2.1 ?_, h.2.2 rfl (by norm_num)⟩
  have hd : distSq (⟨0, 0, 0⟩ : Vec3) (⟨1, 0, 0⟩ : Vec3)
      < homingSearchRadius * homingSearchRadius := by
    norm_num [distSq, normSq, dot, vsub, homingSearchRadius]
  rw [selectTarget, List.foldl_cons,
    selectTargetAux_none_in ⟨0, 0, 0⟩ ⟨⟨1, 0, 0⟩, 30, .basic⟩ hd,
    List.foldl_nil]
  rfl

end Drift
